import Mathlib

/-!
# jstracking — verification of the spec against the source

Shallow embedding of the algorithmic core of the `jstracking` library
(FAST corner detection, Viola-Jones cascade evaluation and rectangle
merging, auto-scale computation, color flood-fill tracking), with
theorems settling the frozen claims about the natural-language spec.

JavaScript numbers are modelled as exact rationals `ℚ` (every JS float is
a rational; `Math.sqrt` is passed in as an abstract function where the
source calls it, and the `Scale` component, whose claims are genuinely
about the real-valued computation, is modelled over `ℝ`).  Machine
coercions (`x | 0`) are modelled explicitly.
-/

set_option maxHeartbeats 1000000

/-- Truncation toward zero (`Math.trunc`), the numeric effect of the
JavaScript `| 0` coercion on values inside the 32-bit range. -/
def jsTrunc (q : ℚ) : ℤ := if 0 ≤ q then ⌊q⌋ else -⌊-q⌋

/-- Signed 32-bit wraparound, the `ToInt32` step of JavaScript's `| 0`. -/
def wrap32 (n : ℤ) : ℤ := (n + 2 ^ 31) % 2 ^ 32 - 2 ^ 31

/-- JavaScript's `q | 0`: truncate toward zero, then wrap to 32 bits. -/
def jsOr0 (q : ℚ) : ℤ := wrap32 (jsTrunc q)

namespace Fast

/-! ## FAST corner detector (`src/unnamed/part_001`, `Fast`)

The 16 circle samples around a candidate pixel are modelled as a function
`Fin 16 → ℤ` (the contents of the `circlePixels` array gathered by
`findCorners`); pixel values and the threshold are integers. -/

/-- `Fast.isBrighter(circlePixel, p, threshold)`:
`circlePixel - p > threshold`. -/
def isBrighter (circlePixel p threshold : ℤ) : Bool :=
  circlePixel - p > threshold

/-- `Fast.isDarker(circlePixel, p, threshold)`:
`p - circlePixel > threshold`. -/
def isDarker (circlePixel p threshold : ℤ) : Bool :=
  p - circlePixel > threshold

/-- Circle sample at position `m` taken modulo 16, the source's
`circlePixels[(x + y) & 15]`. -/
def circleAt (circlePixels : Fin 16 → ℤ) (m : ℕ) : ℤ :=
  circlePixels ⟨m % 16, Nat.mod_lt m (by omega)⟩

/-- Number of the four cardinal circle samples (top 0, right 4, bottom 8,
left 12) brighter than the candidate by more than the threshold: the
first counting pass of `Fast.isTriviallyExcluded`. -/
def cardinalBrighterCount (circlePixels : Fin 16 → ℤ) (p threshold : ℤ) : ℕ :=
  (if isBrighter (circlePixels 0) p threshold then 1 else 0) +
  (if isBrighter (circlePixels 4) p threshold then 1 else 0) +
  (if isBrighter (circlePixels 8) p threshold then 1 else 0) +
  (if isBrighter (circlePixels 12) p threshold then 1 else 0)

/-- Number of the four cardinal circle samples darker than the candidate
by more than the threshold: the second counting pass of
`Fast.isTriviallyExcluded`. -/
def cardinalDarkerCount (circlePixels : Fin 16 → ℤ) (p threshold : ℤ) : ℕ :=
  (if isDarker (circlePixels 0) p threshold then 1 else 0) +
  (if isDarker (circlePixels 4) p threshold then 1 else 0) +
  (if isDarker (circlePixels 8) p threshold then 1 else 0) +
  (if isDarker (circlePixels 12) p threshold then 1 else 0)

/-- `Fast.isTriviallyExcluded`: count the cardinal samples brighter than
`p` by more than `threshold`; when fewer than 3, recount for darker; the
candidate is excluded exactly when both counts fall below 3. -/
def isTriviallyExcluded (circlePixels : Fin 16 → ℤ) (p threshold : ℤ) : Bool :=
  let count := cardinalBrighterCount circlePixels p threshold
  if count < 3 then
    let count2 := cardinalDarkerCount circlePixels p threshold
    decide (count2 < 3)
  else
    false

/-- The inner 9-sample arc walk of `Fast.isCorner`, starting offset `x`,
`y` samples already consumed, `n` remaining, with the source's two
hypothesis flags and its double early-`break` (the source names the flag
after `isBrighter(p, circlePixel)`, which tests the *candidate* brighter,
so `brighter = true` tracks "every sample so far darker than `p`", and
symmetrically for `darker`; the final `brighter || darker` disjunction is
unaffected by the naming). -/
def arcLoop (p : ℤ) (circlePixels : Fin 16 → ℤ) (threshold : ℤ) (x : ℕ) :
    ℕ → ℕ → Bool → Bool → Bool
  | 0, _, brighter, darker => brighter || darker
  | n + 1, y, brighter, darker =>
    let circlePixel := circleAt circlePixels (x + y)
    if isBrighter p circlePixel threshold then
      if isDarker p circlePixel threshold then
        arcLoop p circlePixels threshold x n (y + 1) brighter darker
      else
        if brighter then arcLoop p circlePixels threshold x n (y + 1) brighter false
        else false
    else
      if darker then
        if isDarker p circlePixel threshold then
          arcLoop p circlePixels threshold x n (y + 1) false darker
        else false
      else false

/-- The outer loop of `Fast.isCorner` over the 16 starting offsets; a
corner is declared as soon as one offset's 9-sample arc walk succeeds. -/
def cornerLoop (p : ℤ) (circlePixels : Fin 16 → ℤ) (threshold : ℤ) :
    ℕ → ℕ → Bool
  | 0, _ => false
  | n + 1, x =>
    if arcLoop p circlePixels threshold x 9 0 true true then true
    else cornerLoop p circlePixels threshold n (x + 1)

/-- `Fast.isCorner`: trivial exclusion first, then the 16-offset segment
test. -/
def isCorner (p : ℤ) (circlePixels : Fin 16 → ℤ) (threshold : ℤ) : Bool :=
  if isTriviallyExcluded circlePixels p threshold then false
  else cornerLoop p circlePixels threshold 16 0

/-- The claim's characterization of the corner test: the candidate is not
trivially excluded (fewer than 3 cardinal samples brighter and then fewer
than 3 darker), and some starting offset among the 16 yields a 9-sample
contiguous arc (wrapping modulo 16) that is entirely brighter than `p` by
more than `threshold` or entirely darker. -/
def cornerCharacterization (p : ℤ) (circlePixels : Fin 16 → ℤ)
    (threshold : ℤ) : Prop :=
  ¬ (cardinalBrighterCount circlePixels p threshold < 3 ∧
      cardinalDarkerCount circlePixels p threshold < 3) ∧
  ∃ x < 16, (∀ y < 9, circleAt circlePixels (x + y) - p > threshold) ∨
    (∀ y < 9, p - circleAt circlePixels (x + y) > threshold)

lemma isTriviallyExcluded_eq_true_iff (circlePixels : Fin 16 → ℤ)
    (p threshold : ℤ) :
    isTriviallyExcluded circlePixels p threshold = true ↔
      (cardinalBrighterCount circlePixels p threshold < 3 ∧
        cardinalDarkerCount circlePixels p threshold < 3) := by
  unfold isTriviallyExcluded
  by_cases h : cardinalBrighterCount circlePixels p threshold < 3 <;>
    simp [h]

lemma forall_lt_succ_shift (n : ℕ) (P : ℕ → Prop) :
    (∀ k < n + 1, P k) ↔ P 0 ∧ ∀ k < n, P (k + 1) := by
  constructor
  · exact fun h => ⟨h 0 (by omega), fun k hk => h (k + 1) (by omega)⟩
  · rintro ⟨h0, h⟩ k hk
    cases k with
    | zero => exact h0
    | succ m => exact h m (by omega)

lemma arcLoop_eq_true_iff (p : ℤ) (circlePixels : Fin 16 → ℤ)
    (threshold : ℤ) (x : ℕ) :
    ∀ n y (brighter darker : Bool),
      arcLoop p circlePixels threshold x n y brighter darker = true ↔
        ((brighter = true ∧
            ∀ k < n, isBrighter p (circleAt circlePixels (x + y + k)) threshold = true) ∨
          (darker = true ∧
            ∀ k < n, isDarker p (circleAt circlePixels (x + y + k)) threshold = true)) := by
  intro n
  induction n with
  | zero =>
    intro y brighter darker
    simp [arcLoop]
  | succ m ih =>
    intro y brighter darker
    have hshiftB :
        (∀ k < m + 1, isBrighter p (circleAt circlePixels (x + y + k)) threshold = true) ↔
          isBrighter p (circleAt circlePixels (x + y)) threshold = true ∧
            ∀ k < m, isBrighter p (circleAt circlePixels (x + (y + 1) + k)) threshold = true := by
      simpa [Nat.add_assoc, Nat.add_comm, Nat.add_left_comm] using
        forall_lt_succ_shift m
          (fun k => isBrighter p (circleAt circlePixels (x + y + k)) threshold = true)
    have hshiftD :
        (∀ k < m + 1, isDarker p (circleAt circlePixels (x + y + k)) threshold = true) ↔
          isDarker p (circleAt circlePixels (x + y)) threshold = true ∧
            ∀ k < m, isDarker p (circleAt circlePixels (x + (y + 1) + k)) threshold = true := by
      simpa [Nat.add_assoc, Nat.add_comm, Nat.add_left_comm] using
        forall_lt_succ_shift m
          (fun k => isDarker p (circleAt circlePixels (x + y + k)) threshold = true)
    rw [arcLoop]
    cases hbv : isBrighter p (circleAt circlePixels (x + y)) threshold <;>
      cases hdv : isDarker p (circleAt circlePixels (x + y)) threshold <;>
      cases brighter <;> cases darker <;>
      simp [hbv, hdv, hshiftB, hshiftD, ih]

lemma cornerLoop_eq_true_iff (p : ℤ) (circlePixels : Fin 16 → ℤ)
    (threshold : ℤ) :
    ∀ n x, cornerLoop p circlePixels threshold n x = true ↔
      ∃ k < n, arcLoop p circlePixels threshold (x + k) 9 0 true true = true := by
  intro n
  induction n with
  | zero => intro x; simp [cornerLoop]
  | succ m ih =>
    intro x
    rw [cornerLoop]
    by_cases h : arcLoop p circlePixels threshold x 9 0 true true = true
    · rw [if_pos h]
      simp only [true_iff]
      exact ⟨0, by omega, by simpa using h⟩
    · rw [if_neg h, ih (x + 1)]
      constructor
      · rintro ⟨k, hk, hfound⟩
        exact ⟨k + 1, by omega, by simpa [Nat.add_assoc, Nat.add_comm, Nat.add_left_comm] using hfound⟩
      · rintro ⟨k, hk, hfound⟩
        cases k with
        | zero => exact absurd (by simpa using hfound) h
        | succ i =>
          exact ⟨i, by omega, by simpa [Nat.add_assoc, Nat.add_comm, Nat.add_left_comm] using hfound⟩

end Fast

/-- **C9**. `Fast.isCorner` returns true iff the candidate is not
trivially excluded (fewer than 3 of the 4 cardinal circle samples
brighter than `p` by more than `threshold`, and then fewer than 3
darker), and some starting offset among the 16 yields a 9-sample
contiguous arc (wrapping modulo 16) entirely brighter than `p` by more
than `threshold` or entirely darker. -/
theorem fast_isCorner_characterization (p : ℤ) (circlePixels : Fin 16 → ℤ)
    (threshold : ℤ) :
    Fast.isCorner p circlePixels threshold = true ↔
      Fast.cornerCharacterization p circlePixels threshold := by
  unfold Fast.isCorner Fast.cornerCharacterization
  by_cases hexc : Fast.isTriviallyExcluded circlePixels p threshold = true
  · rw [if_pos hexc]
    simp only [Bool.false_eq_true, false_iff]
    rw [Fast.isTriviallyExcluded_eq_true_iff] at hexc
    tauto
  · rw [if_neg hexc]
    have hnot : ¬ (Fast.cardinalBrighterCount circlePixels p threshold < 3 ∧
        Fast.cardinalDarkerCount circlePixels p threshold < 3) := by
      rw [← Fast.isTriviallyExcluded_eq_true_iff circlePixels p threshold]
      exact hexc
    rw [Fast.cornerLoop_eq_true_iff]
    constructor
    · rintro ⟨k, hk, harc⟩
      refine ⟨hnot, k, hk, ?_⟩
      rw [Fast.arcLoop_eq_true_iff] at harc
      rcases harc with ⟨-, hall⟩ | ⟨-, hall⟩
      · right
        intro y hy
        have := hall y hy
        simp only [Fast.isBrighter, decide_eq_true_eq] at this
        simpa using this
      · left
        intro y hy
        have := hall y hy
        simp only [Fast.isDarker, decide_eq_true_eq] at this
        simpa using this
    · rintro ⟨-, k, hk, hall⟩
      refine ⟨k, hk, ?_⟩
      rw [Fast.arcLoop_eq_true_iff]
      rcases hall with hall | hall
      · right
        refine ⟨rfl, fun y hy => ?_⟩
        have := hall y hy
        simp only [Fast.isDarker, decide_eq_true_eq]
        simpa using this
      · left
        refine ⟨rfl, fun y hy => ?_⟩
        have := hall y hy
        simp only [Fast.isBrighter, decide_eq_true_eq]
        simpa using this

namespace Scale

/-! ## Auto-scale computation (`src/src/utils/Scale.js`, `Scale`)

`adjustScale` divides, takes a square root, clamps and rounds ordinary
JavaScript numbers; its claims are about the real-valued computation, so
this component is modelled over `ℝ` (`Math.sqrt` as `Real.sqrt`,
`Math.round` as `⌊x + 1/2⌋`, which is how it behaves on finite
arguments). -/

/-- JavaScript's `Math.round`: round half toward positive infinity. -/
noncomputable def jsRound (x : ℝ) : ℤ := ⌊x + 1 / 2⌋

/-- `Scale.adjustScale(width, height)`: `ratio = 1 / sqrt(width * height
/ 50000)`, clamped above by `1`, then `Math.round(ratio * 10) / 10`; the
result is the value stored into the process-wide `Scale.scale`. -/
noncomputable def adjustScale (width height : ℝ) : ℝ :=
  let PIXEL_THRESHOLD : ℝ := 50000
  let ratio0 := 1 / Real.sqrt (width * height / PIXEL_THRESHOLD)
  let ratio := if ratio0 > 1 then 1 else ratio0
  (jsRound (ratio * 10) : ℝ) / 10

lemma ratio_pos {width height : ℝ} (hw : 0 < width) (hh : 0 < height) :
    0 < 1 / Real.sqrt (width * height / 50000) := by
  have h1 : (0:ℝ) < width * height / 50000 := by positivity
  have h2 : 0 < Real.sqrt (width * height / 50000) := Real.sqrt_pos.mpr h1
  positivity

end Scale

/-- **C4 (counterexample)**. The claim `0 < Scale.adjustScale width
height` fails at `width = 20000`, `height = 1001` (a frame of more than
20 million pixels): there `ratio < 1/20`, so `Math.round(ratio * 10)` is
`0` and the stored scale is `0`. -/
theorem scale_adjustScale_positive_counterexample :
    (0:ℝ) < 20000 ∧ (0:ℝ) < 1001 ∧
      ¬ (0 < Scale.adjustScale 20000 1001) := by
  refine ⟨by norm_num, by norm_num, ?_⟩
  have hsqrt : (20:ℝ) < Real.sqrt (20000 * 1001 / 50000) := by
    rw [show (20000:ℝ) * 1001 / 50000 = 2002 / 5 by norm_num]
    have h := Real.lt_sqrt (x := 20) (y := 2002 / 5) (by norm_num)
    rw [h]
    norm_num
  have hpos : (0:ℝ) < Real.sqrt (20000 * 1001 / 50000) := by
    calc (0:ℝ) < 20 := by norm_num
    _ < _ := hsqrt
  have hratio_lt : 1 / Real.sqrt (20000 * 1001 / 50000) < 1 / 20 := by
    exact one_div_lt_one_div_of_lt (by norm_num) hsqrt
  have hratio_pos : 0 < 1 / Real.sqrt (20000 * 1001 / 50000) := by positivity
  have hnotgt : ¬ (1 / Real.sqrt (20000 * 1001 / 50000) > 1) := by
    intro h
    have : (1:ℝ) / 20 > 1 := lt_trans h hratio_lt
    norm_num at this
  have hdef : Scale.adjustScale 20000 1001 =
      ((⌊((if 1 / Real.sqrt (20000 * 1001 / 50000) > 1 then (1:ℝ)
          else 1 / Real.sqrt (20000 * 1001 / 50000)) * 10 + 1 / 2)⌋ : ℝ)) / 10 := rfl
  rw [hdef, if_neg hnotgt]
  have hfloor : ⌊1 / Real.sqrt (20000 * 1001 / 50000) * 10 + 1 / 2⌋ = 0 := by
    rw [Int.floor_eq_iff]
    constructor
    · push_cast
      nlinarith
    · push_cast
      nlinarith
  rw [hfloor]
  norm_num

/-- **C4 (amended)**. For every `width > 0` and `height > 0`, the scale
stored by `Scale.adjustScale` satisfies `0 ≤ S ≤ 1` (the lower bound is
not strict: frames larger than 20 million pixels round the ratio down to
`0`). -/
theorem scale_adjustScale_bounds (width height : ℝ)
    (hw : 0 < width) (hh : 0 < height) :
    0 ≤ Scale.adjustScale width height ∧ Scale.adjustScale width height ≤ 1 := by
  have hdef : Scale.adjustScale width height =
      ((⌊((if 1 / Real.sqrt (width * height / 50000) > 1 then (1:ℝ)
          else 1 / Real.sqrt (width * height / 50000)) * 10 + 1 / 2)⌋ : ℝ)) / 10 := rfl
  have hpos : 0 < 1 / Real.sqrt (width * height / 50000) := Scale.ratio_pos hw hh
  rw [hdef]
  set ratio := if 1 / Real.sqrt (width * height / 50000) > 1 then (1:ℝ)
      else 1 / Real.sqrt (width * height / 50000) with hratio
  have hub : ratio ≤ 1 := by
    rw [hratio]
    split
    · exact le_refl 1
    · exact le_of_not_lt (by assumption)
  have hlb : 0 < ratio := by
    rw [hratio]
    split
    · norm_num
    · exact hpos
  constructor
  · apply div_nonneg _ (by norm_num)
    have h0 : (0:ℤ) ≤ ⌊ratio * 10 + 1 / 2⌋ := by
      apply Int.floor_nonneg.mpr
      nlinarith
    exact_mod_cast h0
  · rw [div_le_one (by norm_num)]
    have h10 : ⌊ratio * 10 + 1 / 2⌋ ≤ 10 := by
      have hlt : ratio * 10 + 1 / 2 < ((11:ℤ):ℝ) := by push_cast; nlinarith
      have := Int.floor_lt.mpr hlt
      omega
    exact_mod_cast h10

/-- **C4 (witness)**. The amended bounds at the concrete frame
`640 × 480`. -/
theorem scale_adjustScale_bounds_witness :
    0 ≤ Scale.adjustScale 640 480 ∧ Scale.adjustScale 640 480 ≤ 1 :=
  scale_adjustScale_bounds 640 480 (by norm_num) (by norm_num)

/-- **C5**. For every `width > 0`, `height > 0` with
`width * height ≤ 50000`, `Scale.adjustScale` stores exactly `1`. -/
theorem scale_adjustScale_small_frame (width height : ℝ)
    (hw : 0 < width) (hh : 0 < height) (harea : width * height ≤ 50000) :
    Scale.adjustScale width height = 1 := by
  have hdef : Scale.adjustScale width height =
      ((⌊((if 1 / Real.sqrt (width * height / 50000) > 1 then (1:ℝ)
          else 1 / Real.sqrt (width * height / 50000)) * 10 + 1 / 2)⌋ : ℝ)) / 10 := rfl
  have hquot_pos : (0:ℝ) < width * height / 50000 := by positivity
  have hquot_le : width * height / 50000 ≤ 1 := by
    rw [div_le_one (by norm_num : (0:ℝ) < 50000)]
    linarith
  have hsqrt_pos : 0 < Real.sqrt (width * height / 50000) :=
    Real.sqrt_pos.mpr hquot_pos
  have hsqrt_le : Real.sqrt (width * height / 50000) ≤ 1 :=
    Real.sqrt_le_one.mpr hquot_le
  have hge : 1 ≤ 1 / Real.sqrt (width * height / 50000) :=
    one_le_one_div hsqrt_pos hsqrt_le
  have hratio : (if 1 / Real.sqrt (width * height / 50000) > 1 then (1:ℝ)
      else 1 / Real.sqrt (width * height / 50000)) = 1 := by
    split
    · rfl
    · linarith [le_of_not_lt (by assumption : ¬ 1 / Real.sqrt (width * height / 50000) > 1)]
  rw [hdef, hratio]
  have hfloor : ⌊(1:ℝ) * 10 + 1 / 2⌋ = 10 := by
    rw [Int.floor_eq_iff]
    push_cast
    norm_num
  rw [hfloor]
  norm_num

/-- **C5 (witness)**. The small-frame guarantee at the concrete frame
`200 × 200` (40000 pixels). -/
theorem scale_adjustScale_small_frame_witness :
    (0:ℝ) < 200 ∧ (200:ℝ) * 200 ≤ 50000 ∧ Scale.adjustScale 200 200 = 1 :=
  ⟨by norm_num, by norm_num,
    scale_adjustScale_small_frame 200 200 (by norm_num) (by norm_num) (by norm_num)⟩

namespace ViolaJones

/-! ## Viola-Jones cascade (`src/unnamed/part_004`, `ViolaJones`)

The classifier asset is the flat numeric array `data` (a list of exact
rationals; every JS float is one).  The three integral images are
modelled as total functions on `Int32Array` indices, which subsumes every
read the source performs.  `Math.sqrt` — an external library function —
is supplied as an abstract `sqrtFn`; none of the claims about this
component depend on its values. -/

/-- The window environment of one `ViolaJones.evalStages_` call: the
three integral images, the window position `(i, j)`, the image width, the
block dimensions and the current scale. -/
structure HaarEnv where
  integralImage : ℤ → ℚ
  integralImageSquare : ℤ → ℚ
  tiltedIntegralImage : ℤ → ℚ
  i : ℤ
  j : ℤ
  width : ℤ
  blockWidth : ℤ
  blockHeight : ℤ
  scale : ℚ

/-- Read `data[w]`.  An out-of-range read yields `undefined` in JS,
modelled as `0`; the only reads that can go out of range feed arithmetic
whose outcome is the same for the short-circuited and the full stage
evaluation, which is all the claims compare. -/
def readQ (data : List ℚ) (w : ℕ) : ℚ := data.getD w 0

/-- Iteration count of the JS loop `while (n--)`: it terminates exactly
when `n` is a natural number (a negative or fractional count decrements
past every falsy value), so the count is `none` otherwise. -/
def asCount (q : ℚ) : Option ℕ :=
  if q.den = 1 ∧ 0 ≤ q.num then some q.num.toNat else none

/-- Iteration count of the JS loop `for (let r = 0; r < q; r++)`. -/
def jsForIters (q : ℚ) : ℕ := if q ≤ 0 then 0 else (⌈q⌉).toNat

/-- The rectangle loop of one cascade node in `ViolaJones.evalStages_`:
process `r` weighted rectangles starting at data cursor `w`, scaling and
truncating (`| 0`) each rectangle, summing the integral-image queries
(tilted table when the node's `tilted` flag is truthy, standard table
otherwise) weighted by `rectWeight`; returns the accumulated `rectsSum`
and the advanced cursor. -/
def evalRects (data : List ℚ) (env : HaarEnv) (tilted : ℚ) :
    ℕ → ℕ → ℚ → ℚ × ℕ
  | w, 0, rectsSum => (rectsSum, w)
  | w, r + 1, rectsSum =>
    let rectLeft := jsOr0 ((env.j : ℚ) + readQ data w * env.scale + 1 / 2)
    let rectTop := jsOr0 ((env.i : ℚ) + readQ data (w + 1) * env.scale + 1 / 2)
    let rectWidth := jsOr0 (readQ data (w + 2) * env.scale + 1 / 2)
    let rectHeight := jsOr0 (readQ data (w + 3) * env.scale + 1 / 2)
    let rectWeight := readQ data (w + 4)
    let sum :=
      if tilted ≠ 0 then
        let w1 := (rectLeft - rectHeight + rectWidth) +
          (rectTop + rectWidth + rectHeight - 1) * env.width
        let w2 := rectLeft + (rectTop - 1) * env.width
        let w3 := (rectLeft - rectHeight) + (rectTop + rectHeight - 1) * env.width
        let w4 := (rectLeft + rectWidth) + (rectTop + rectWidth - 1) * env.width
        (env.tiltedIntegralImage w1 + env.tiltedIntegralImage w2 -
          env.tiltedIntegralImage w3 - env.tiltedIntegralImage w4) * rectWeight
      else
        let w1 := rectTop * env.width + rectLeft
        let w2 := w1 + rectWidth
        let w3 := w1 + rectHeight * env.width
        let w4 := w3 + rectWidth
        (env.integralImage w1 - env.integralImage w2 - env.integralImage w3 +
          env.integralImage w4) * rectWeight
    evalRects data env tilted (w + 5) r (rectsSum + sum)

/-- The node loop of one cascade stage (`while (nodeLength--)`): process
`n` nodes starting at cursor `w`, adding each node's left or right leaf
value to `stageSum` according to the comparison
`rectsSum * inverseArea < nodeThreshold * standardDeviation`. -/
def evalNodes (data : List ℚ) (env : HaarEnv)
    (standardDeviation inverseArea : ℚ) : ℕ → ℕ → ℚ → ℚ × ℕ
  | w, 0, stageSum => (stageSum, w)
  | w, n + 1, stageSum =>
    let tilted := readQ data w
    let rectsLength := readQ data (w + 1)
    let res := evalRects data env tilted (w + 2) (jsForIters rectsLength) 0
    let rectsSum := res.1
    let w2 := res.2
    let nodeThreshold := readQ data w2
    let nodeLeft := readQ data (w2 + 1)
    let nodeRight := readQ data (w2 + 2)
    let stageSum' :=
      if rectsSum * inverseArea < nodeThreshold * standardDeviation then
        stageSum + nodeLeft
      else
        stageSum + nodeRight
    evalNodes data env standardDeviation inverseArea (w2 + 3) n stageSum'

/-- One stage of the cascade: read the stage threshold and node count at
cursor `w`, evaluate the nodes; `none` when the node count is not a
natural number (the source's `while (nodeLength--)` would then never
terminate). -/
def evalStage (data : List ℚ) (env : HaarEnv)
    (standardDeviation inverseArea : ℚ) (w : ℕ) : Option (ℚ × ℚ × ℕ) :=
  let stageThreshold := readQ data w
  match asCount (readQ data (w + 1)) with
  | none => none
  | some n =>
    let res := evalNodes data env standardDeviation inverseArea (w + 2) n 0
    some (stageThreshold, res.1, res.2)

/-- The stage loop of `ViolaJones.evalStages_`
(`for (let w = 2; w < length;)`) with its cascade short circuit: reject
(`some false`) at the first stage whose `stageSum` falls below the stage
threshold, without looking at the remaining data.  `fuel` bounds the
number of stages; every stage advances the cursor by at least 2, so
`data.length` iterations always suffice and `none` only models a source
loop that would not terminate. -/
def evalStagesAux (data : List ℚ) (env : HaarEnv)
    (standardDeviation inverseArea : ℚ) : ℕ → ℕ → Option Bool
  | 0, w => if w < data.length then none else some true
  | fuel + 1, w =>
    if w < data.length then
      match evalStage data env standardDeviation inverseArea w with
      | none => none
      | some (stageThreshold, stageSum, w') =>
        if stageSum < stageThreshold then some false
        else evalStagesAux data env standardDeviation inverseArea fuel w'
    else some true

/-- The spec's non-short-circuited evaluation: every stage is evaluated
in order and the window is accepted exactly when every stage's sum
reaches its threshold; `acc` carries the conjunction so far. -/
def evalStagesFullAux (data : List ℚ) (env : HaarEnv)
    (standardDeviation inverseArea : ℚ) : ℕ → ℕ → Bool → Option Bool
  | 0, w, acc => if w < data.length then none else some acc
  | fuel + 1, w, acc =>
    if w < data.length then
      match evalStage data env standardDeviation inverseArea w with
      | none => none
      | some (stageThreshold, stageSum, w') =>
        evalStagesFullAux data env standardDeviation inverseArea fuel w'
          (acc && !(stageSum < stageThreshold))
    else some acc

/-- The per-window normalization prologue of `ViolaJones.evalStages_`:
`inverseArea = 1 / (blockWidth * blockHeight)`. -/
def inverseArea (env : HaarEnv) : ℚ :=
  1 / ((env.blockWidth * env.blockHeight : ℤ) : ℚ)

/-- The per-window normalization prologue of `ViolaJones.evalStages_`:
window corner offsets `wbA..wbC`, `mean`, `variance`, and the standard
deviation (`Math.sqrt(variance)` via `sqrtFn` when the variance is
positive, `1` otherwise). -/
def windowStdDev (env : HaarEnv) (sqrtFn : ℚ → ℚ) : ℚ :=
  let wbA := env.i * env.width + env.j
  let wbB := wbA + env.blockWidth
  let wbD := wbA + env.blockHeight * env.width
  let wbC := wbD + env.blockWidth
  let mean := (env.integralImage wbA - env.integralImage wbB -
    env.integralImage wbD + env.integralImage wbC) * inverseArea env
  let variance := (env.integralImageSquare wbA - env.integralImageSquare wbB -
    env.integralImageSquare wbD + env.integralImageSquare wbC) * inverseArea env -
    mean * mean
  if variance > 0 then sqrtFn variance else 1

/-- `ViolaJones.evalStages_`: normalization prologue followed by the
short-circuited stage loop starting at cursor `w = 2`. -/
def evalStages_ (data : List ℚ) (env : HaarEnv) (sqrtFn : ℚ → ℚ) : Option Bool :=
  evalStagesAux data env (windowStdDev env sqrtFn) (inverseArea env) data.length 2

/-- The spec's full (non-short-circuited) counterpart of
`ViolaJones.evalStages_`: identical prologue and stage arithmetic, but
every stage is evaluated and the results are conjoined. -/
def evalStagesFull (data : List ℚ) (env : HaarEnv) (sqrtFn : ℚ → ℚ) : Option Bool :=
  evalStagesFullAux data env (windowStdDev env sqrtFn) (inverseArea env) data.length 2 true

end ViolaJones

namespace ViolaJones

lemma evalStagesFullAux_to_aux (data : List ℚ) (env : HaarEnv)
    (standardDeviation inverseArea : ℚ) :
    ∀ fuel w acc b,
      evalStagesFullAux data env standardDeviation inverseArea fuel w acc = some b →
        ∃ b', evalStagesAux data env standardDeviation inverseArea fuel w = some b' ∧
          b = (acc && b') := by
  intro fuel
  induction fuel with
  | zero =>
    intro w acc b h
    rw [evalStagesFullAux] at h
    rw [evalStagesAux]
    by_cases hw : w < data.length
    · rw [if_pos hw] at h
      exact absurd h (by simp)
    · rw [if_neg hw] at h
      rw [if_neg hw]
      exact ⟨true, rfl, by simpa using h.symm⟩
  | succ fuel ih =>
    intro w acc b h
    rw [evalStagesFullAux] at h
    rw [evalStagesAux]
    by_cases hw : w < data.length
    · rw [if_pos hw] at h
      rw [if_pos hw]
      cases hstage : evalStage data env standardDeviation inverseArea w with
      | none => rw [hstage] at h; exact absurd h (by simp)
      | some res =>
        obtain ⟨stageThreshold, stageSum, w'⟩ := res
        rw [hstage] at h
        simp only at h
        obtain ⟨b', hb', hbe⟩ := ih w' (acc && !(stageSum < stageThreshold)) b h
        by_cases hfail : stageSum < stageThreshold
        · refine ⟨false, by simp [hfail], ?_⟩
          rw [hbe]
          simp [hfail]
        · refine ⟨b', by simp [hfail, hb'], ?_⟩
          rw [hbe]
          simp [hfail]
    · rw [if_neg hw] at h
      rw [if_neg hw]
      exact ⟨true, rfl, by simpa using h.symm⟩

end ViolaJones

/-- **C1**. Whenever the spec's full stage-by-stage evaluation of a
window (no short-circuiting) yields an accept/reject outcome, the
short-circuited `ViolaJones.evalStages_` yields exactly the same outcome
for the same classifier data, integral images, window position, block
size and scale; in particular a window rejected at some stage is also
rejected by the full evaluation. -/
theorem violaJones_evalStages_short_circuit_eq (data : List ℚ)
    (env : ViolaJones.HaarEnv) (sqrtFn : ℚ → ℚ) (b : Bool)
    (h : ViolaJones.evalStagesFull data env sqrtFn = some b) :
    ViolaJones.evalStages_ data env sqrtFn = some b := by
  obtain ⟨b', hb', hbe⟩ := ViolaJones.evalStagesFullAux_to_aux data env
    (ViolaJones.windowStdDev env sqrtFn) (ViolaJones.inverseArea env)
    data.length 2 true b h
  show ViolaJones.evalStagesAux data env (ViolaJones.windowStdDev env sqrtFn)
    (ViolaJones.inverseArea env) data.length 2 = some b
  rw [hb', hbe]
  simp

/-- **C1 (witness)**. A concrete two-value cascade (`minWidth = 0`,
`minHeight = 0`, one stage of threshold `-1` with zero nodes) on the
all-zero integral images: the full evaluation accepts and — by the
theorem — so does the short-circuited source evaluation. -/
theorem violaJones_evalStages_short_circuit_eq_witness :
    ViolaJones.evalStagesFull [0, 0, -1, 0]
        ⟨fun _ => 0, fun _ => 0, fun _ => 0, 0, 0, 0, 0, 0, 0⟩
        (fun _ => 0) = some true ∧
      ViolaJones.evalStages_ [0, 0, -1, 0]
        ⟨fun _ => 0, fun _ => 0, fun _ => 0, 0, 0, 0, 0, 0, 0⟩
        (fun _ => 0) = some true := by
  have hfull : ViolaJones.evalStagesFull [0, 0, -1, 0]
      ⟨fun _ => 0, fun _ => 0, fun _ => 0, 0, 0, 0, 0, 0, 0⟩
      (fun _ => 0) = some true := by rfl
  exact ⟨hfull,
    violaJones_evalStages_short_circuit_eq _ _ _ true hfull⟩

namespace ViolaJones

/-! ### The scale loop of `ViolaJones.detect` (claim C3)

`detect` computes `scale = initialScale * scaleFactor`,
`blockWidth = (scale * minWidth) | 0`,
`blockHeight = (scale * minHeight) | 0`, and loops
`while (blockWidth < width && blockHeight < height)`, multiplying
`scale` by `scaleFactor` at the end of each iteration.  Nothing in
`detect` (nor in its callers in the repository) validates `scaleFactor`;
there is no error path at all.  The loop body only appends to `rects`
and never writes `scale`, `blockWidth`, `blockHeight`, `width` or
`height`, so the guard's trajectory depends only on the state below. -/

/-- The scan scale after `n` iterations of the `detect` scale loop:
`initialScale * scaleFactor` on entry, multiplied by `scaleFactor` once
per iteration. -/
def detectScale (initialScale scaleFactor : ℚ) (n : ℕ) : ℚ :=
  initialScale * scaleFactor * scaleFactor ^ n

/-- `blockWidth = (scale * minWidth) | 0` (and identically
`blockHeight`). -/
def blockDimAt (minDim scale : ℚ) : ℤ := jsOr0 (scale * minDim)

/-- The guard of `while (blockWidth < width && blockHeight < height)`. -/
def scaleLoopGuard (minWidth minHeight : ℚ) (width height : ℤ)
    (scale : ℚ) : Bool :=
  decide (blockDimAt minWidth scale < width) &&
    decide (blockDimAt minHeight scale < height)

end ViolaJones

/-- **C3 (code_bug)**. `ViolaJones.detect` contains no validation of
`scaleFactor` at all: with `scaleFactor = 1`, `initialScale = 1`, a
20×20 classifier and a 100×100 frame, the scale-loop guard still holds
after every iteration (`blockWidth` stays 20), so the scan loop never
exits — the call hangs instead of being rejected before scanning begins
as the spec requires. -/
theorem violaJones_detect_scale_loop_diverges (n : ℕ) :
    ViolaJones.scaleLoopGuard 20 20 100 100
      (ViolaJones.detectScale 1 1 n) = true := by
  have h1 : ViolaJones.detectScale 1 1 n = 1 := by
    simp [ViolaJones.detectScale]
  rw [h1]
  norm_num [ViolaJones.scaleLoopGuard, ViolaJones.blockDimAt, jsOr0, jsTrunc,
    wrap32]

/-- Modelled from the spec: `TrackingMath.intersectRect`
(`src/math/Math.js` is not under `src/`; only its callers are).  It
tests whether two axis-aligned rectangles given by their min/max corners
intersect — §4.2 step 7's "pairwise test every pair of rectangles for
intersection", with closed rectangles (touching edges intersect). -/
def TrackingMath.intersectRect (x0 y0 x1 y1 x2 y2 x3 y3 : ℚ) : Bool :=
  ¬ (x2 > x1 ∨ x3 < x0 ∨ y2 > y1 ∨ y3 < y0)

/-- Modelled from the spec: `DisjointSet` (`src/utils/DisjointSet.js` is
not under `src/`; only its callers are).  Union-find over integer
indices per §4.5: `find x` returns the representative of `x`'s class and
`union a b` merges the two representatives' classes.  The model keeps
the representative map directly, which satisfies every §4.5 requirement:
`find` agrees on all elements of one component, `union x x` is a no-op,
and repeated unions have no further effect. -/
structure DisjointSet where
  length : ℕ
  rep : ℕ → ℕ

/-- `new DisjointSet(length)`: every index its own representative. -/
def DisjointSet.init (length : ℕ) : DisjointSet :=
  ⟨length, fun x => x⟩

/-- `find(x)`: the representative of `x`'s class. -/
def DisjointSet.find (ds : DisjointSet) (x : ℕ) : ℕ := ds.rep x

/-- `union(a, b)`: point the whole class of `a` at `b`'s
representative. -/
def DisjointSet.union (ds : DisjointSet) (a b : ℕ) : DisjointSet :=
  let ra := ds.rep a
  let rb := ds.rep b
  if ra = rb then ds
  else ⟨ds.length, fun x => if ds.rep x = ra then rb else ds.rep x⟩

namespace ViolaJones

/-! ### `ViolaJones.mergeRectangles_` (claims C2 and C10) -/

/-- A raw detection rectangle `{x, y, width, height}` accumulated by
`detect`. -/
structure Rect where
  x : ℚ
  y : ℚ
  width : ℚ
  height : ℚ

instance : Inhabited Rect := ⟨⟨0, 0, 0, 0⟩⟩

/-- A merged detection `{total, width, height, x, y}`. -/
structure MergedRect where
  total : ℕ
  width : ℤ
  height : ℤ
  x : ℤ
  y : ℤ
deriving DecidableEq

/-- `ViolaJones.REGIONS_OVERLAP = 0.5`. -/
def REGIONS_OVERLAP : ℚ := 1 / 2

/-- The body of the pairwise union pass of `ViolaJones.mergeRectangles_`
for one ordered pair `(i, j)`: when the rectangles intersect, compare
the two overlap ratios against `REGIONS_OVERLAP` and union the indices.
(A zero-area rectangle makes a ratio denominator zero; `ℚ` division then
yields `0` where JS yields an infinite or NaN ratio — under both
semantics the `≥ 0.5` test fails and no union happens, the spec's §7
degenerate-geometry guard.) -/
def unionPair (rects : List Rect) (ds : DisjointSet) (i j : ℕ) : DisjointSet :=
  let r1 := rects.getD i default
  let r2 := rects.getD j default
  if TrackingMath.intersectRect r1.x r1.y (r1.x + r1.width) (r1.y + r1.height)
      r2.x r2.y (r2.x + r2.width) (r2.y + r2.height) then
    let x1 := max r1.x r2.x
    let y1 := max r1.y r2.y
    let x2 := min (r1.x + r1.width) (r2.x + r2.width)
    let y2 := min (r1.y + r1.height) (r2.y + r2.height)
    let overlap := (x1 - x2) * (y1 - y2)
    let area1 := r1.width * r1.height
    let area2 := r2.width * r2.height
    if overlap / (area1 * (area1 / area2)) ≥ REGIONS_OVERLAP ∧
        overlap / (area2 * (area1 / area2)) ≥ REGIONS_OVERLAP then
      ds.union i j
    else ds
  else ds

/-- The full pairwise union pass (both nested `for` loops). -/
def unionPass (rects : List Rect) : DisjointSet :=
  (List.range rects.length).foldl
    (fun ds i =>
      (List.range rects.length).foldl (fun ds j => unionPair rects ds i j) ds)
    (DisjointSet.init rects.length)

/-- The members of representative `rp`, in the ascending `k` order of
the source's accumulation loop over `map`. -/
def groupMembers (ds : DisjointSet) (rp : ℕ) : List ℕ :=
  (List.range ds.length).filter fun k => ds.find k = rp

/-- The keys of the source's `map` object: every representative that
owns at least one index.  JavaScript enumerates the integer-like keys of
an object in ascending numeric order, and every representative of a
union-find over `0..length` is itself `< length`, so the ascending
filter reproduces `Object.keys(map)`. -/
def mapKeys (ds : DisjointSet) : List ℕ :=
  (List.range ds.length).filter fun rp =>
    (List.range ds.length).any fun k => ds.find k = rp

/-- The output record of one group: `total` is the member count; each
coordinate is the member sum averaged (`+ 0.5`, i.e. rounded), divided
by the global `Scale.scale` (`scaleS` here) and truncated (`| 0`). -/
def groupOutput (rects : List Rect) (scaleS : ℚ) (members : List ℕ) :
    MergedRect :=
  let total := members.length
  let sumWidth := (members.map fun k => (rects.getD k default).width).sum
  let sumHeight := (members.map fun k => (rects.getD k default).height).sum
  let sumX := (members.map fun k => (rects.getD k default).x).sum
  let sumY := (members.map fun k => (rects.getD k default).y).sum
  { total := total
    width := jsOr0 ((sumWidth / (total : ℚ) + 1 / 2) / scaleS)
    height := jsOr0 ((sumHeight / (total : ℚ) + 1 / 2) / scaleS)
    x := jsOr0 ((sumX / (total : ℚ) + 1 / 2) / scaleS)
    y := jsOr0 ((sumY / (total : ℚ) + 1 / 2) / scaleS) }

/-- `ViolaJones.mergeRectangles_`: union overlapping detections, group
indices by representative, and emit one averaged rectangle per group. -/
def mergeRectangles_ (rects : List Rect) (scaleS : ℚ) : List MergedRect :=
  let ds := unionPass rects
  (mapKeys ds).map fun rp => groupOutput rects scaleS (groupMembers ds rp)

end ViolaJones

/-- **C2**. Exactly the two raw detections `{x:10, y:10, w:20, h:20}`
and `{x:15, y:15, w:20, h:20}`, with `REGIONS_OVERLAP = 0.5` and the
global scale at its default `1.0`, merge into exactly one rectangle: the
rounded member averages (`x = y = round(12.5) = 13`,
`width = height = 20`) with `total = 2`. -/
theorem violaJones_mergeRectangles_scenarioC :
    ViolaJones.mergeRectangles_
        [⟨10, 10, 20, 20⟩, ⟨15, 15, 20, 20⟩] 1 =
      [{ total := 2, width := 20, height := 20, x := 13, y := 13 }] := by
  have hr2 : List.range 2 = [0, 1] := rfl
  norm_num [ViolaJones.mergeRectangles_, ViolaJones.unionPass,
    ViolaJones.unionPair, ViolaJones.groupMembers, ViolaJones.mapKeys,
    ViolaJones.groupOutput, ViolaJones.REGIONS_OVERLAP,
    TrackingMath.intersectRect, DisjointSet.init, DisjointSet.find,
    DisjointSet.union, jsOr0, jsTrunc, wrap32, hr2, List.getD,
    List.foldl, List.filter, List.any, List.map, List.sum]

namespace ViolaJones

/-- The invariant carried through the union pass: the set has `n`
elements and every index below `n` keeps a representative below `n`. -/
def DSInv (n : ℕ) (ds : DisjointSet) : Prop :=
  ds.length = n ∧ ∀ k, k < n → ds.rep k < n

lemma foldl_invariant {α β : Type*} (P : β → Prop) (f : β → α → β)
    (l : List α) : ∀ b : β, P b → (∀ b a, a ∈ l → P b → P (f b a)) →
      P (l.foldl f b) := by
  induction l with
  | nil => intro b hb _; simpa using hb
  | cons a l ih =>
    intro b hb hf
    simp only [List.foldl_cons]
    exact ih (f b a) (hf b a (by simp) hb)
      (fun b' a' ha' hb' => hf b' a' (by simp [ha']) hb')

lemma union_inv {n : ℕ} {ds : DisjointSet} (h : DSInv n ds) (i j : ℕ)
    (hj : j < n) : DSInv n (ds.union i j) := by
  obtain ⟨hlen, hrep⟩ := h
  simp only [DisjointSet.union]
  by_cases hr : ds.rep i = ds.rep j
  · rw [if_pos hr]; exact ⟨hlen, hrep⟩
  · rw [if_neg hr]
    refine ⟨hlen, fun k hk => ?_⟩
    by_cases hx : ds.rep k = ds.rep i
    · simpa [hx] using hrep j hj
    · simpa [hx] using hrep k hk

lemma unionPair_eq_or (rects : List Rect) (ds : DisjointSet) (i j : ℕ) :
    unionPair rects ds i j = ds ∨ unionPair rects ds i j = ds.union i j := by
  simp only [unionPair]
  split
  · split
    · right; rfl
    · left; rfl
  · left; rfl

lemma unionPass_inv (rects : List Rect) :
    DSInv rects.length (unionPass rects) := by
  unfold unionPass
  apply foldl_invariant
  · exact ⟨rfl, fun k hk => by simpa [DisjointSet.init] using hk⟩
  · intro ds i _ hds
    apply foldl_invariant
    · exact hds
    · intro ds' j hj hds'
      rcases unionPair_eq_or rects ds' i j with heq | heq
      · rw [heq]; exact hds'
      · rw [heq]; exact union_inv hds' i j (List.mem_range.mp hj)

lemma sum_map_ite_eq_one {a : ℕ} :
    ∀ keys : List ℕ, keys.Nodup → a ∈ keys →
      ((keys.map fun rp => if a = rp then 1 else 0).sum : ℕ) = 1 := by
  intro keys
  induction keys with
  | nil => intro _ h; simp at h
  | cons x l ih =>
    intro hnd hmem
    rcases List.mem_cons.mp hmem with rfl | hmem'
    · have hnotin : a ∉ l := (List.nodup_cons.mp hnd).1
      have hzero : (l.map fun rp => if a = rp then 1 else 0).sum = 0 := by
        apply List.sum_eq_zero
        intro v hv
        obtain ⟨rp, hrp, rfl⟩ := List.mem_map.mp hv
        have hne : a ≠ rp := fun h => hnotin (h ▸ hrp)
        simp [hne]
      simp [hzero]
    · have hxl : x ∉ l := (List.nodup_cons.mp hnd).1
      have hne : a ≠ x := fun h => hxl (h ▸ hmem')
      have hrec := ih (List.nodup_cons.mp hnd).2 hmem'
      simp [hne, hrec]

lemma sum_filter_lengths (f : ℕ → ℕ) :
    ∀ l keys : List ℕ, keys.Nodup → (∀ k ∈ l, f k ∈ keys) →
      ((keys.map fun rp => (l.filter fun k => f k = rp).length).sum) =
        l.length := by
  intro l
  induction l with
  | nil => intro keys _ _; simp
  | cons a l ih =>
    intro keys hnd hmem
    have hsplit : (keys.map fun rp => ((a :: l).filter fun k => f k = rp).length) =
        keys.map fun rp =>
          (if f a = rp then 1 else 0) + ((l.filter fun k => f k = rp)).length := by
      apply List.map_congr_left
      intro rp _
      by_cases h : f a = rp
      · simp [List.filter_cons, h]
        omega
      · simp [List.filter_cons, h]
    rw [hsplit, List.sum_map_add]
    rw [sum_map_ite_eq_one keys hnd (hmem a (by simp)),
      ih keys hnd (fun k hk => hmem k (by simp [hk]))]
    simp only [List.length_cons]
    omega

end ViolaJones

/-- **C10**. `ViolaJones.mergeRectangles_` partitions its input: every
raw rectangle is accumulated into exactly one representative's group, so
the sum of the `total` fields over the returned rectangles equals the
number of input rectangles, for every input list and every scale. -/
theorem violaJones_mergeRectangles_total_sum (rects : List ViolaJones.Rect)
    (scaleS : ℚ) :
    ((ViolaJones.mergeRectangles_ rects scaleS).map
        ViolaJones.MergedRect.total).sum = rects.length := by
  obtain ⟨hlen, hrep⟩ := ViolaJones.unionPass_inv rects
  unfold ViolaJones.mergeRectangles_
  rw [List.map_map]
  have htot : (ViolaJones.MergedRect.total ∘ fun rp =>
      ViolaJones.groupOutput rects scaleS
        (ViolaJones.groupMembers (ViolaJones.unionPass rects) rp)) =
      fun rp =>
        (ViolaJones.groupMembers (ViolaJones.unionPass rects) rp).length := rfl
  rw [htot]
  have hmem : ∀ k ∈ List.range (ViolaJones.unionPass rects).length,
      (ViolaJones.unionPass rects).rep k ∈
        ViolaJones.mapKeys (ViolaJones.unionPass rects) := by
    intro k hk
    rw [List.mem_range] at hk
    unfold ViolaJones.mapKeys
    rw [List.mem_filter]
    constructor
    · rw [List.mem_range]
      rw [hlen]
      exact hrep k (by omega)
    · rw [List.any_eq_true]
      refine ⟨k, by simpa using hk, by simp [DisjointSet.find]⟩
  have hnd : (ViolaJones.mapKeys (ViolaJones.unionPass rects)).Nodup := by
    unfold ViolaJones.mapKeys
    exact List.Nodup.filter _ (List.nodup_range _)
  have hmain := ViolaJones.sum_filter_lengths
    ((ViolaJones.unionPass rects).rep)
    (List.range (ViolaJones.unionPass rects).length)
    (ViolaJones.mapKeys (ViolaJones.unionPass rects)) hnd hmem
  unfold ViolaJones.groupMembers
  simp only [DisjointSet.find] at hmain ⊢
  rw [hmain, List.length_range, hlen]

namespace ColorTracker

/-! ## Color flood-fill tracker (`src/unnamed/part_003`, `ColorTracker`)

Pixel samples are integers (`Uint8ClampedArray` values); a color
predicate takes `(r, g, b, a, w, i, j)`.  The `marked` byte array is
modelled as the set of marked buffer offsets, the explicit stack of
packed `w, i, j` triples as a list of triples (the source pushes three
ints and pops them in reverse, which round-trips to the same triple).
The flood-fill loop carries a fuel bound: every pushed triple marks a
previously unmarked in-frame offset, so `width * height + 1` pops always
suffice for a single-seed run (proved below); `none` models only fuel
exhaustion, never a source behaviour.  The `matched` and `work` counters
instrument the loop for the claims about group size and total work. -/

/-- Read `pixels[idx]`; out-of-range reads are JS `undefined`, modelled
as `0` (every read the loop performs on an in-frame offset is in range
when `pixels` has the advertised `width * height * 4` samples). -/
def pget (pixels : List ℤ) (idx : ℤ) : ℤ :=
  if idx < 0 then 0 else pixels.getD idx.toNat 0

/-- The cached row offsets `neighboursI`. -/
def neighboursI : Fin 8 → ℤ := ![-1, -1, 0, 1, 1, 1, 0, -1]

/-- The cached column offsets `neighboursJ`. -/
def neighboursJ : Fin 8 → ℤ := ![0, 1, 1, 1, 0, -1, -1, -1]

/-- The per-width buffer offsets of `getNeighboursForWidth_`. -/
def neighboursW (width : ℤ) : Fin 8 → ℤ :=
  ![-width * 4, -width * 4 + 4, 4, width * 4 + 4, width * 4, width * 4 - 4,
    -4, -width * 4 - 4]

/-- The neighbour loop inside the flood fill: for `k = 0..7` in order,
push the neighbour when its offset is unmarked (`!marked[otherW]`) and
its row/column are in frame, marking the offset as it is pushed. -/
def pushNeighbours (width height : ℤ) (currW currI currJ : ℤ) :
    List (Fin 8) → List (ℤ × ℤ × ℤ) → Finset ℤ →
    List (ℤ × ℤ × ℤ) × Finset ℤ
  | [], queue, marked => (queue, marked)
  | k :: ks, queue, marked =>
    let otherW := currW + neighboursW width k
    let otherI := currI + neighboursI k
    let otherJ := currJ + neighboursJ k
    if otherW ∉ marked ∧ 0 ≤ otherI ∧ otherI < height ∧
        0 ≤ otherJ ∧ otherJ < width then
      pushNeighbours width height currW currI currJ ks
        ((otherW, otherI, otherJ) :: queue) (insert otherW marked)
    else
      pushNeighbours width height currW currI currJ ks queue marked

/-- The `while (queuePosition >= 0)` flood-fill loop of `trackColor_`:
pop a triple, test the predicate; on a match append `(j, i)` to the
cloud and push the unmarked in-frame neighbours. -/
def floodLoop (pixels : List ℤ) (width height : ℤ)
    (colorFn : ℤ → ℤ → ℤ → ℤ → ℤ → ℤ → ℤ → Bool) :
    ℕ → List (ℤ × ℤ × ℤ) → Finset ℤ → List ℤ → ℕ → ℕ →
    Option (List ℤ × Finset ℤ × ℕ × ℕ)
  | _, [], marked, cloud, matched, work => some (cloud, marked, matched, work)
  | 0, _ :: _, _, _, _, _ => none
  | fuel + 1, (currW, currI, currJ) :: queue, marked, cloud, matched, work =>
    if colorFn (pget pixels currW) (pget pixels (currW + 1))
        (pget pixels (currW + 2)) (pget pixels (currW + 3))
        currW currI currJ then
      let st := pushNeighbours width height currW currI currJ
        (List.finRange 8) queue marked
      floodLoop pixels width height colorFn fuel st.1 st.2
        (cloud ++ [currJ, currI]) (matched + 1) (work + 1)
    else
      floodLoop pixels width height colorFn fuel queue marked cloud
        matched (work + 1)

/-- Sentinel for the source's `Infinity` initialisation of `minx`/`miny`
in `calculateDimensions_`: beyond every representable pixel coordinate
(coordinates are below `2^31`), so every comparison behaves exactly as
with `Infinity` on any cloud the tracker produces. -/
def INFINITY : ℤ := 2 ^ 53

/-- The scan loop of `calculateDimensions_` over the first `total` cloud
entries taken as `(x, y)` pairs; returns
`(width = maxx - minx, height = maxy - miny, x = minx, y = miny)`. -/
def calcDimsGo (cloud : List ℤ) :
    ℕ → ℕ → ℤ → ℤ → ℤ → ℤ → ℤ × ℤ × ℤ × ℤ
  | 0, _, maxx, maxy, minx, miny => (maxx - minx, maxy - miny, minx, miny)
  | n + 1, c, maxx, maxy, minx, miny =>
    let x := cloud.getD c 0
    let y := cloud.getD (c + 1) 0
    calcDimsGo cloud n (c + 2) (max maxx x) (max maxy y) (min minx x)
      (min miny y)

/-- `ColorTracker.prototype.calculateDimensions_(cloud, total)`. -/
def calculateDimensions_ (cloud : List ℤ) (total : ℕ) : ℤ × ℤ × ℤ × ℤ :=
  calcDimsGo cloud ((total + 1) / 2) 0 (-1) (-1) INFINITY INFINITY

/-- A tracked rectangle `{x, y, width, height, color}`. -/
structure TRect where
  x : ℤ
  y : ℤ
  width : ℤ
  height : ℤ
  color : String
deriving DecidableEq

/-- Build the result object pushed by `trackColor_`:
`data = calculateDimensions_(…); data.color = color`. -/
def trectOfDims (dims : ℤ × ℤ × ℤ × ℤ) (color : String) : TRect :=
  ⟨dims.2.2.1, dims.2.2.2, dims.1, dims.2.1, color⟩

/-- The seed order of the outer double loop of `trackColor_`: row-major
`(i, j)` over the frame. -/
def seedList (width height : ℕ) : List (ℤ × ℤ) :=
  (List.range height).flatMap fun i =>
    (List.range width).map fun j => ((i : ℤ), (j : ℤ))

/-- One seed step of the outer loop of `trackColor_`: skip a marked
seed; otherwise push and mark it, run the flood fill, and append a box
(`calculateDimensions_` tagged with the color) when the cloud entry
count `currGroupSize` reaches `minGroupSize`.  The state is
`(marked, results, total flood-fill work so far)`. -/
def processSeed (pixels : List ℤ) (width height : ℕ)
    (colorFn : ℤ → ℤ → ℤ → ℤ → ℤ → ℤ → ℤ → Bool)
    (minGroupSize : ℕ) (color : String)
    (st : Finset ℤ × List TRect × ℕ) (i j : ℤ) :
    Option (Finset ℤ × List TRect × ℕ) :=
  let w : ℤ := 4 * (i * (width : ℤ) + j)
  if w ∈ st.1 then some st
  else
    match floodLoop pixels (width : ℤ) (height : ℤ) colorFn
        (width * height + 1) [(w, i, j)] (insert w st.1) [] 0 0 with
    | none => none
    | some (cloud, marked', _, wk) =>
      some (marked',
        (if minGroupSize ≤ cloud.length then
          st.2.1 ++ [trectOfDims (calculateDimensions_ cloud cloud.length) color]
        else st.2.1),
        st.2.2 + wk)

/-- The outer double loop of `trackColor_` over all seeds. -/
def trackColorLoop (pixels : List ℤ) (width height : ℕ)
    (colorFn : ℤ → ℤ → ℤ → ℤ → ℤ → ℤ → ℤ → Bool)
    (minGroupSize : ℕ) (color : String) :
    List (ℤ × ℤ) → (Finset ℤ × List TRect × ℕ) →
    Option (Finset ℤ × List TRect × ℕ)
  | [], st => some st
  | s :: ss, st =>
    match processSeed pixels width height colorFn minGroupSize color st
        s.1 s.2 with
    | none => none
    | some st' =>
      trackColorLoop pixels width height colorFn minGroupSize color ss st'

/-- The inner scan of `ColorTracker.prototype.mergeRectangles_`: find
the first later rectangle intersecting `r1`; when found, replace it by
the union of the two bounds (`r1` is then dropped by the caller). -/
def colorMergeStep (r1 : TRect) : List TRect → Option (List TRect)
  | [] => none
  | r2 :: rest =>
    if TrackingMath.intersectRect (r1.x : ℚ) (r1.y : ℚ)
        ((r1.x + r1.width : ℤ) : ℚ) ((r1.y + r1.height : ℤ) : ℚ)
        (r2.x : ℚ) (r2.y : ℚ) ((r2.x + r2.width : ℤ) : ℚ)
        ((r2.y + r2.height : ℤ) : ℚ) then
      let x1 := min r1.x r2.x
      let y1 := min r1.y r2.y
      let x2 := max (r1.x + r1.width) (r2.x + r2.width)
      let y2 := max (r1.y + r1.height) (r2.y + r2.height)
      some ({ r2 with height := y2 - y1, width := x2 - x1, x := x1, y := y1 }
        :: rest)
    else
      (colorMergeStep r1 rest).map (r2 :: ·)

/-- The outer sweep of `ColorTracker.prototype.mergeRectangles_`: a
rectangle folded into a later one is dropped; a surviving rectangle is
kept exactly when both dimensions lie within
`[minDimension, maxDimension]`.  Each step removes one rectangle from
the remaining list, so `fuel = rects.length` always suffices. -/
def colorMergeLoop (minDimension maxDimension : ℤ) :
    ℕ → List TRect → List TRect
  | 0, _ => []
  | _ + 1, [] => []
  | fuel + 1, r1 :: rest =>
    match colorMergeStep r1 rest with
    | some rest' => colorMergeLoop minDimension maxDimension fuel rest'
    | none =>
      (if r1.width ≥ minDimension ∧ r1.height ≥ minDimension ∧
          r1.width ≤ maxDimension ∧ r1.height ≤ maxDimension then [r1]
        else []) ++ colorMergeLoop minDimension maxDimension fuel rest

/-- `ColorTracker.prototype.mergeRectangles_`. -/
def mergeRectangles_ (minDimension maxDimension : ℤ)
    (rects : List TRect) : List TRect :=
  colorMergeLoop minDimension maxDimension rects.length rects

/-- The built-in `cyan` predicate registered at module load. -/
def cyanFn (r g b : ℤ) : Bool :=
  let thresholdGreen : ℤ := 50
  let thresholdBlue : ℤ := 70
  let dx := r - 0
  let dy := g - 255
  let dz := b - 255
  if g - r ≥ thresholdGreen ∧ b - r ≥ thresholdBlue then true
  else dx * dx + dy * dy + dz * dz < 6400

/-- The built-in `magenta` predicate registered at module load. -/
def magentaFn (r g b : ℤ) : Bool :=
  let threshold : ℤ := 50
  let dx := r - 255
  let dy := g - 0
  let dz := b - 255
  if r - g ≥ threshold ∧ b - g ≥ threshold then true
  else dx * dx + dy * dy + dz * dz < 19600

/-- The built-in `yellow` predicate registered at module load. -/
def yellowFn (r g b : ℤ) : Bool :=
  let threshold : ℤ := 50
  let dx := r - 255
  let dy := g - 255
  let dz := b - 0
  if r - b ≥ threshold ∧ g - b ≥ threshold then true
  else dx * dx + dy * dy + dz * dz < 10000

/-- `ColorTracker.knownColors_`, the global predicate registry with the
three built-ins registered at startup. -/
def knownColors_ (name : String) :
    Option (ℤ → ℤ → ℤ → ℤ → ℤ → ℤ → ℤ → Bool) :=
  if name = "cyan" then some fun r g b _ _ _ _ => cyanFn r g b
  else if name = "magenta" then some fun r g b _ _ _ _ => magentaFn r g b
  else if name = "yellow" then some fun r g b _ _ _ _ => yellowFn r g b
  else none

/-- `ColorTracker.prototype.trackColor_`: an unregistered color returns
the empty result list before any scanning; otherwise flood-fill every
seed and merge the boxes.  The result carries the total flood-fill work
counter. -/
def trackColor_ (pixels : List ℤ) (width height : ℕ) (color : String)
    (minGroupSize : ℕ) (minDimension maxDimension : ℤ) :
    Option (List TRect × ℕ) :=
  match knownColors_ color with
  | none => some ([], 0)
  | some colorFn =>
    match trackColorLoop pixels width height colorFn minGroupSize color
        (seedList width height) (∅, [], 0) with
    | none => none
    | some (_, results, work) =>
      some (mergeRectangles_ minDimension maxDimension results, work)

/-- `ColorTracker.prototype.track`: run `trackColor_` for each
configured color in order and concatenate the results; no per-color
validation happens here. -/
def track (pixels : List ℤ) (width height : ℕ)
    (minGroupSize : ℕ) (minDimension maxDimension : ℤ) :
    List String → Option (List TRect)
  | [] => some []
  | c :: cs =>
    match trackColor_ pixels width height c minGroupSize minDimension
        maxDimension with
    | none => none
    | some (res, _) =>
      (track pixels width height minGroupSize minDimension maxDimension
        cs).map (res ++ ·)

/-- The validation loop of the `ColorTracker` constructor: every
configured color must resolve in the registry, otherwise the constructor
throws `Color not valid`. -/
def constructorCheck : List String → Except String Unit
  | [] => .ok ()
  | c :: cs =>
    if (knownColors_ c).isSome then constructorCheck cs
    else .error "Color not valid"

/-- Number of frame pixels matching the predicate (the matched cloud of
every component is drawn from these). -/
def matchedPixelCount (pixels : List ℤ) (width height : ℕ)
    (colorFn : ℤ → ℤ → ℤ → ℤ → ℤ → ℤ → ℤ → Bool) : ℕ :=
  ((seedList width height).filter fun s =>
    colorFn (pget pixels (4 * (s.1 * (width : ℤ) + s.2)))
      (pget pixels (4 * (s.1 * (width : ℤ) + s.2) + 1))
      (pget pixels (4 * (s.1 * (width : ℤ) + s.2) + 2))
      (pget pixels (4 * (s.1 * (width : ℤ) + s.2) + 3))
      (4 * (s.1 * (width : ℤ) + s.2)) s.1 s.2).length

end ColorTracker

/-- **C7 (counterexample)**. `ColorTracker.track` invoked with the
configured color list `["bogus"]` — a name not in the registry — does
not fail: it returns normally with an empty result list
(`trackColor_`'s `if (!colorFn) return results` guard), contradicting
the claim that such a call fails synchronously with an error. -/
theorem colorTracker_track_unknown_counterexample :
    ColorTracker.knownColors_ "bogus" = none ∧
      ColorTracker.track [0, 0, 0, 255] 1 1 30 20 1000000 ["bogus"] =
        some [] := by
  constructor <;> rfl

/-- **C7 (amended)**. An unregistered color name is rejected
synchronously by the `ColorTracker` *constructor* (its validation loop
throws before any tracking), but `ColorTracker.track` itself does not
fail on an unregistered configured name: `trackColor_` returns the
empty result list for that color before any scanning, and the call
completes normally. -/
theorem colorTracker_unknown_color_behaviour :
    (∀ (colors : List String) (c : String), c ∈ colors →
      ColorTracker.knownColors_ c = none →
      ∃ msg, ColorTracker.constructorCheck colors = Except.error msg) ∧
    (∀ (pixels : List ℤ) (width height : ℕ) (c : String)
      (minGroupSize : ℕ) (minDimension maxDimension : ℤ),
      ColorTracker.knownColors_ c = none →
      ColorTracker.trackColor_ pixels width height c minGroupSize
        minDimension maxDimension = some ([], 0)) := by
  constructor
  · intro colors
    induction colors with
    | nil => intro c h; simp at h
    | cons c' cs ih =>
      intro c hmem hnone
      rcases List.mem_cons.mp hmem with rfl | hmem'
      · rw [ColorTracker.constructorCheck, hnone]
        exact ⟨_, rfl⟩
      · by_cases hc' : (ColorTracker.knownColors_ c').isSome
        · rw [ColorTracker.constructorCheck, if_pos hc']
          exact ih c hmem' hnone
        · rw [ColorTracker.constructorCheck, if_neg hc']
          exact ⟨_, rfl⟩
  · intro pixels width height c mgs minD maxD hnone
    unfold ColorTracker.trackColor_
    rw [hnone]

/-- **C7 (witness)**. The amended behaviour at the concrete name
`"bogus"`: the constructor check fails, `trackColor_` returns no
results and no error. -/
theorem colorTracker_unknown_color_behaviour_witness :
    (∃ msg, ColorTracker.constructorCheck ["bogus"] = Except.error msg) ∧
      ColorTracker.trackColor_ [] 1 1 "bogus" 30 20 100 = some ([], 0) :=
  ⟨colorTracker_unknown_color_behaviour.1 ["bogus"] "bogus" (by simp) (by rfl),
    colorTracker_unknown_color_behaviour.2 [] 1 1 "bogus" 30 20 100 (by rfl)⟩

namespace ColorTracker

lemma floodLoop_cloud_growth (pixels : List ℤ) (width height : ℤ)
    (colorFn : ℤ → ℤ → ℤ → ℤ → ℤ → ℤ → ℤ → Bool) :
    ∀ (fuel : ℕ) (queue : List (ℤ × ℤ × ℤ)) (marked : Finset ℤ)
      (cloud : List ℤ) (matched work : ℕ) (cloud' : List ℤ)
      (marked' : Finset ℤ) (matched' work' : ℕ),
      floodLoop pixels width height colorFn fuel queue marked cloud matched
          work = some (cloud', marked', matched', work') →
      cloud'.length + 2 * matched = cloud.length + 2 * matched' := by
  intro fuel
  induction fuel with
  | zero =>
    intro queue marked cloud matched work cloud' marked' matched' work' h
    cases queue with
    | nil =>
      simp only [floodLoop, Option.some.injEq, Prod.mk.injEq] at h
      obtain ⟨h1, -, h2, -⟩ := h
      rw [h1, h2]
    | cons t q =>
      simp only [floodLoop] at h
      exact Option.noConfusion h
  | succ f ih =>
    intro queue marked cloud matched work cloud' marked' matched' work' h
    cases queue with
    | nil =>
      simp only [floodLoop, Option.some.injEq, Prod.mk.injEq] at h
      obtain ⟨h1, -, h2, -⟩ := h
      rw [h1, h2]
    | cons t rest =>
      obtain ⟨currW, currI, currJ⟩ := t
      simp only [floodLoop] at h
      by_cases hc : colorFn (pget pixels currW) (pget pixels (currW + 1))
          (pget pixels (currW + 2)) (pget pixels (currW + 3))
          currW currI currJ = true
      · rw [if_pos hc] at h
        have hrec := ih _ _ _ _ _ _ _ _ _ h
        simp only [List.length_append, List.length_cons, List.length_nil]
          at hrec
        omega
      · rw [if_neg hc] at h
        exact ih _ _ _ _ _ _ _ _ _ h

end ColorTracker

/-- **C6 (counterexample)**. A 2×1 all-magenta frame with
`minGroupSize = 3`: the single connected component has 2 matched pixels,
fewer than `minGroupSize`, yet `trackColor_` emits a bounding box — the
source compares the cloud *entry* count (`currGroupSize`, two entries
per matched pixel, here 4) against `minGroupSize`, not the matched-pixel
count, so the claim's "iff matched-pixel count ≥ minGroupSize" fails. -/
theorem colorTracker_minGroupSize_counterexample :
    ColorTracker.matchedPixelCount [255, 0, 255, 255, 255, 0, 255, 255] 2 1
        (fun r g b _ _ _ _ => ColorTracker.magentaFn r g b) = 2 ∧
      2 < 3 ∧
      ColorTracker.trackColor_ [255, 0, 255, 255, 255, 0, 255, 255] 2 1
          "magenta" 3 0 1000000 =
        some ([⟨0, 0, 1, 0, "magenta"⟩], 2) := by
  refine ⟨by rfl, by omega, by rfl⟩

/-- **C6 (amended)**. In `ColorTracker`'s per-color flood fill, a
connected component (one seed's flood) yields a bounding box (min/max
x,y over its matched cloud, tagged with the color name) iff its cloud
entry count — which is exactly twice the component's matched-pixel
count, each matched pixel contributing an `(x, y)` pair — is at least
`minGroupSize`. -/
theorem colorTracker_group_emission (pixels : List ℤ) (width height : ℕ)
    (colorFn : ℤ → ℤ → ℤ → ℤ → ℤ → ℤ → ℤ → Bool) (minGroupSize : ℕ)
    (color : String) (marked : Finset ℤ)
    (results : List ColorTracker.TRect) (work : ℕ) (i j : ℤ)
    (cloud : List ℤ) (marked' : Finset ℤ) (matched wk : ℕ)
    (hseed : 4 * (i * (width : ℤ) + j) ∉ marked)
    (hflood : ColorTracker.floodLoop pixels (width : ℤ) (height : ℤ)
        colorFn (width * height + 1) [(4 * (i * (width : ℤ) + j), i, j)]
        (insert (4 * (i * (width : ℤ) + j)) marked) [] 0 0 =
      some (cloud, marked', matched, wk)) :
    cloud.length = 2 * matched ∧
      ColorTracker.processSeed pixels width height colorFn minGroupSize
          color (marked, results, work) i j =
        some (marked',
          (if minGroupSize ≤ 2 * matched then
            results ++ [ColorTracker.trectOfDims
              (ColorTracker.calculateDimensions_ cloud cloud.length) color]
          else results),
          work + wk) := by
  have hlen : cloud.length = 2 * matched := by
    have := ColorTracker.floodLoop_cloud_growth pixels (width : ℤ)
      (height : ℤ) colorFn (width * height + 1) _ _ [] 0 0 cloud marked'
      matched wk hflood
    simpa using this
  refine ⟨hlen, ?_⟩
  simp only [ColorTracker.processSeed]
  rw [if_neg hseed, hflood]
  simp [hlen]

/-- **C6 (amended, witness)**. The amended criterion at the concrete
2×1 all-magenta frame with `minGroupSize = 3`: the component has 2
matched pixels (cloud entry count 4), and since `3 ≤ 4`, a box is
emitted. -/
theorem colorTracker_group_emission_witness :
    ([(0 : ℤ), 0, 1, 0].length = 2 * 2) ∧
      ColorTracker.processSeed [255, 0, 255, 255, 255, 0, 255, 255] 2 1
          (fun r g b _ _ _ _ => ColorTracker.magentaFn r g b) 3 "magenta"
          (∅, [], 0) 0 0 =
        some (insert 4 (insert 0 ∅),
          (if 3 ≤ 2 * 2 then
            [] ++ [ColorTracker.trectOfDims
              (ColorTracker.calculateDimensions_ [(0 : ℤ), 0, 1, 0]
                [(0 : ℤ), 0, 1, 0].length) "magenta"]
          else []),
          0 + 2) :=
  colorTracker_group_emission [255, 0, 255, 255, 255, 0, 255, 255] 2 1
    (fun r g b _ _ _ _ => ColorTracker.magentaFn r g b) 3 "magenta"
    ∅ [] 0 0 0 [(0 : ℤ), 0, 1, 0] (insert 4 (insert 0 ∅)) 2 2
    (by decide) (by rfl)

namespace ColorTracker

/-- The buffer offsets of the in-frame pixels: `4 * n` for
`n = i * width + j < width * height`. -/
def imageOffsets (width height : ℕ) : Finset ℤ :=
  (Finset.range (width * height)).image fun n : ℕ => 4 * (n : ℤ)

lemma card_imageOffsets (width height : ℕ) :
    (imageOffsets width height).card = width * height := by
  rw [imageOffsets, Finset.card_image_of_injective _ ?inj, Finset.card_range]
  case inj =>
    intro a b hab
    have h4 : 4 * (a : ℤ) = 4 * (b : ℤ) := hab
    omega

lemma mem_imageOffsets {width height : ℕ} {i j : ℤ} (hi0 : 0 ≤ i)
    (hih : i < (height : ℤ)) (hj0 : 0 ≤ j) (hjw : j < (width : ℤ)) :
    4 * (i * (width : ℤ) + j) ∈ imageOffsets width height := by
  rw [imageOffsets, Finset.mem_image]
  have hn : 0 ≤ i * (width : ℤ) + j :=
    add_nonneg (mul_nonneg hi0 (by positivity)) hj0
  have hub : i * (width : ℤ) + j < ((width * height : ℕ) : ℤ) := by
    push_cast
    nlinarith
  refine ⟨(i * (width : ℤ) + j).toNat, ?_, ?_⟩
  · rw [Finset.mem_range]
    omega
  · rw [Int.toNat_of_nonneg hn]

/-- Every stacked triple is a consistent in-frame pixel:
`w = 4 * (i * width + j)` with `0 ≤ i < height` and `0 ≤ j < width`. -/
def QueueInv (width height : ℕ) (queue : List (ℤ × ℤ × ℤ)) : Prop :=
  ∀ t ∈ queue, t.1 = 4 * (t.2.1 * (width : ℤ) + t.2.2) ∧
    0 ≤ t.2.1 ∧ t.2.1 < (height : ℤ) ∧ 0 ≤ t.2.2 ∧ t.2.2 < (width : ℤ)

lemma neighboursW_eq (width : ℤ) (k : Fin 8) :
    neighboursW width k = 4 * (neighboursI k * width + neighboursJ k) := by
  fin_cases k
  · show -width * 4 = 4 * (-1 * width + 0); ring
  · show -width * 4 + 4 = 4 * (-1 * width + 1); ring
  · show (4 : ℤ) = 4 * (0 * width + 1); ring
  · show width * 4 + 4 = 4 * (1 * width + 1); ring
  · show width * 4 = 4 * (1 * width + 0); ring
  · show width * 4 - 4 = 4 * (1 * width + -1); ring
  · show (-4 : ℤ) = 4 * (0 * width + -1); ring
  · show -width * 4 - 4 = 4 * (-1 * width + -1); ring

lemma pushNeighbours_spec (width height : ℕ) (currW currI currJ : ℤ)
    (hw : currW = 4 * (currI * (width : ℤ) + currJ)) :
    ∀ (ks : List (Fin 8)) (queue : List (ℤ × ℤ × ℤ)) (marked : Finset ℤ),
      QueueInv width height queue →
      QueueInv width height (pushNeighbours (width : ℤ) (height : ℤ)
          currW currI currJ ks queue marked).1 ∧
        (imageOffsets width height \ (pushNeighbours (width : ℤ)
            (height : ℤ) currW currI currJ ks queue marked).2).card +
          (pushNeighbours (width : ℤ) (height : ℤ) currW currI currJ ks
            queue marked).1.length =
        (imageOffsets width height \ marked).card + queue.length := by
  intro ks
  induction ks with
  | nil =>
    intro queue marked hq
    exact ⟨hq, rfl⟩
  | cons k ks ih =>
    intro queue marked hq
    simp only [pushNeighbours]
    by_cases hcond : currW + neighboursW (width : ℤ) k ∉ marked ∧
        0 ≤ currI + neighboursI k ∧ currI + neighboursI k < (height : ℤ) ∧
        0 ≤ currJ + neighboursJ k ∧ currJ + neighboursJ k < (width : ℤ)
    · rw [if_pos hcond]
      obtain ⟨hnm, hi0, hih, hj0, hjw⟩ := hcond
      have hoff : currW + neighboursW (width : ℤ) k =
          4 * ((currI + neighboursI k) * (width : ℤ) +
            (currJ + neighboursJ k)) := by
        rw [hw, neighboursW_eq]
        ring
      have hmem : currW + neighboursW (width : ℤ) k ∈
          imageOffsets width height := by
        rw [hoff]
        exact mem_imageOffsets hi0 hih hj0 hjw
      have hq' : QueueInv width height ((currW + neighboursW (width : ℤ) k,
          currI + neighboursI k, currJ + neighboursJ k) :: queue) := by
        intro t ht
        rcases List.mem_cons.mp ht with rfl | ht'
        · exact ⟨hoff, hi0, hih, hj0, hjw⟩
        · exact hq t ht'
      obtain ⟨q1, q3⟩ := ih _ _ hq'
      refine ⟨q1, ?_⟩
      rw [q3]
      have hx : currW + neighboursW (width : ℤ) k ∈
          imageOffsets width height \ marked :=
        Finset.mem_sdiff.mpr ⟨hmem, hnm⟩
      have hpos : 0 < (imageOffsets width height \ marked).card :=
        Finset.card_pos.mpr ⟨_, hx⟩
      have hcard : (imageOffsets width height \
          insert (currW + neighboursW (width : ℤ) k) marked).card =
          (imageOffsets width height \ marked).card - 1 := by
        rw [Finset.sdiff_insert, Finset.card_erase_of_mem hx]
      rw [hcard]
      simp only [List.length_cons]
      omega
    · rw [if_neg hcond]
      exact ih _ _ hq

lemma floodLoop_total (pixels : List ℤ) (width height : ℕ)
    (colorFn : ℤ → ℤ → ℤ → ℤ → ℤ → ℤ → ℤ → Bool) :
    ∀ (fuel : ℕ) (queue : List (ℤ × ℤ × ℤ)) (marked : Finset ℤ)
      (cloud : List ℤ) (matched work : ℕ),
      QueueInv width height queue →
      (imageOffsets width height \ marked).card + queue.length < fuel →
      ∃ cloud' marked' matched' work',
        floodLoop pixels (width : ℤ) (height : ℤ) colorFn fuel queue
            marked cloud matched work =
          some (cloud', marked', matched', work') ∧
        work' + (imageOffsets width height \ marked').card =
          work + (imageOffsets width height \ marked).card +
            queue.length := by
  intro fuel
  induction fuel with
  | zero =>
    intro queue marked cloud matched work _ hlt
    exact absurd hlt (by omega)
  | succ f ih =>
    intro queue marked cloud matched work hq hlt
    cases queue with
    | nil =>
      exact ⟨cloud, marked, matched, work, by simp [floodLoop], by simp⟩
    | cons t rest =>
      obtain ⟨currW, currI, currJ⟩ := t
      obtain ⟨hw, hi0, hih, hj0, hjw⟩ := hq (currW, currI, currJ) (by simp)
      have hrest : QueueInv width height rest := fun t ht =>
        hq t (by simp [ht])
      simp only [floodLoop]
      by_cases hc : colorFn (pget pixels currW) (pget pixels (currW + 1))
          (pget pixels (currW + 2)) (pget pixels (currW + 3))
          currW currI currJ = true
      · rw [if_pos hc]
        obtain ⟨q1, q3⟩ := pushNeighbours_spec width height currW currI
          currJ hw (List.finRange 8) rest marked hrest
        have hlt' : (imageOffsets width height \ (pushNeighbours (width : ℤ)
            (height : ℤ) currW currI currJ (List.finRange 8) rest
            marked).2).card + (pushNeighbours (width : ℤ) (height : ℤ)
            currW currI currJ (List.finRange 8) rest marked).1.length <
            f := by
          rw [q3]
          simp only [List.length_cons] at hlt
          omega
        obtain ⟨cloud', marked', matched', work', heq, hwork⟩ :=
          ih _ _ (cloud ++ [currJ, currI]) (matched + 1) (work + 1) q1 hlt'
        refine ⟨cloud', marked', matched', work', heq, ?_⟩
        simp only [List.length_cons]
        omega
      · rw [if_neg hc]
        have hlt' : (imageOffsets width height \ marked).card +
            rest.length < f := by
          simp only [List.length_cons] at hlt
          omega
        obtain ⟨cloud', marked', matched', work', heq, hwork⟩ :=
          ih rest marked cloud matched (work + 1) hrest hlt'
        refine ⟨cloud', marked', matched', work', heq, ?_⟩
        simp only [List.length_cons]
        omega

lemma processSeed_total (pixels : List ℤ) (width height : ℕ)
    (colorFn : ℤ → ℤ → ℤ → ℤ → ℤ → ℤ → ℤ → Bool) (mgs : ℕ)
    (color : String) (marked : Finset ℤ) (results : List TRect)
    (work : ℕ) (i j : ℤ) (hi0 : 0 ≤ i) (hih : i < (height : ℤ))
    (hj0 : 0 ≤ j) (hjw : j < (width : ℤ)) :
    ∃ marked' results' work',
      processSeed pixels width height colorFn mgs color
          (marked, results, work) i j = some (marked', results', work') ∧
      work' + (imageOffsets width height \ marked').card =
        work + (imageOffsets width height \ marked).card := by
  simp only [processSeed]
  by_cases hmem : 4 * (i * (width : ℤ) + j) ∈ marked
  · rw [if_pos hmem]
    exact ⟨marked, results, work, rfl, rfl⟩
  · rw [if_neg hmem]
    have hA : 4 * (i * (width : ℤ) + j) ∈ imageOffsets width height :=
      mem_imageOffsets hi0 hih hj0 hjw
    have hIn : 4 * (i * (width : ℤ) + j) ∈
        imageOffsets width height \ marked :=
      Finset.mem_sdiff.mpr ⟨hA, hmem⟩
    have hpos : 0 < (imageOffsets width height \ marked).card :=
      Finset.card_pos.mpr ⟨_, hIn⟩
    have hcard : (imageOffsets width height \
        insert (4 * (i * (width : ℤ) + j)) marked).card =
        (imageOffsets width height \ marked).card - 1 := by
      rw [Finset.sdiff_insert, Finset.card_erase_of_mem hIn]
    have hle : (imageOffsets width height \ marked).card ≤
        width * height := by
      calc (imageOffsets width height \ marked).card ≤
          (imageOffsets width height).card :=
            Finset.card_le_card (Finset.sdiff_subset)
        _ = width * height := card_imageOffsets width height
    have hq : QueueInv width height [(4 * (i * (width : ℤ) + j), i, j)] := by
      intro t ht
      rcases List.mem_cons.mp ht with rfl | ht'
      · exact ⟨rfl, hi0, hih, hj0, hjw⟩
      · exact absurd ht' (by simp)
    have hlt : (imageOffsets width height \
        insert (4 * (i * (width : ℤ) + j)) marked).card +
        ([(4 * (i * (width : ℤ) + j), i, j)] : List (ℤ × ℤ × ℤ)).length <
        width * height + 1 := by
      rw [hcard]
      simp only [List.length_cons, List.length_nil]
      omega
    obtain ⟨cloud', marked', matched', work', heq, hwork⟩ :=
      floodLoop_total pixels width height colorFn (width * height + 1)
        [(4 * (i * (width : ℤ) + j), i, j)]
        (insert (4 * (i * (width : ℤ) + j)) marked) [] 0 0 hq hlt
    rw [heq]
    refine ⟨marked', _, work + work', rfl, ?_⟩
    rw [hcard] at hwork
    simp only [List.length_cons, List.length_nil] at hwork
    omega

lemma trackColorLoop_total (pixels : List ℤ) (width height : ℕ)
    (colorFn : ℤ → ℤ → ℤ → ℤ → ℤ → ℤ → ℤ → Bool) (mgs : ℕ)
    (color : String) :
    ∀ (seeds : List (ℤ × ℤ)) (marked : Finset ℤ) (results : List TRect)
      (work : ℕ),
      (∀ s ∈ seeds, 0 ≤ s.1 ∧ s.1 < (height : ℤ) ∧ 0 ≤ s.2 ∧
        s.2 < (width : ℤ)) →
      ∃ marked' results' work',
        trackColorLoop pixels width height colorFn mgs color seeds
            (marked, results, work) = some (marked', results', work') ∧
        work' + (imageOffsets width height \ marked').card =
          work + (imageOffsets width height \ marked).card := by
  intro seeds
  induction seeds with
  | nil =>
    intro marked results work _
    exact ⟨marked, results, work, rfl, rfl⟩
  | cons s ss ih =>
    intro marked results work hb
    obtain ⟨hi0, hih, hj0, hjw⟩ := hb s (by simp)
    obtain ⟨m1, r1, w1, heq1, hacc1⟩ := processSeed_total pixels width
      height colorFn mgs color marked results work s.1 s.2 hi0 hih hj0 hjw
    simp only [trackColorLoop]
    rw [heq1]
    obtain ⟨m2, r2, w2, heq2, hacc2⟩ := ih m1 r1 w1
      (fun t ht => hb t (by simp [ht]))
    exact ⟨m2, r2, w2, heq2, by omega⟩

lemma seedList_bounds (width height : ℕ) :
    ∀ s ∈ seedList width height, 0 ≤ s.1 ∧ s.1 < (height : ℤ) ∧
      0 ≤ s.2 ∧ s.2 < (width : ℤ) := by
  intro s hs
  simp only [seedList, List.mem_flatMap, List.mem_map, List.mem_range] at hs
  obtain ⟨i, hi, j, hj, rfl⟩ := hs
  simp only [List.bind_eq_flatMap, List.mem_flatMap, List.mem_range,
    pure, List.mem_singleton] at hj
  obtain ⟨a, ha, hj2⟩ := hj
  have hja : j = (a : ℤ) := by simpa [List.singleton] using hj2
  subst hja
  exact ⟨Int.natCast_nonneg i,
    by show (i : ℤ) < (height : ℤ); exact_mod_cast hi,
    Int.natCast_nonneg a,
    by show (a : ℤ) < (width : ℤ); exact_mod_cast ha⟩

end ColorTracker

/-- **C8**. For every pixel buffer, frame dimensions and parameters, the
`trackColor_` flood fill terminates (the model's fuel bound is never
reached), and its total work — the number of stack pops across all
seeds — is at most `width * height`: every pushed triple marks a
previously unmarked in-frame offset, so each pixel is pushed (and hence
popped) at most once regardless of the predicate's outcome. -/
theorem colorTracker_trackColor_terminates_linear (pixels : List ℤ)
    (width height : ℕ) (color : String) (minGroupSize : ℕ)
    (minDimension maxDimension : ℤ) :
    ∃ results work,
      ColorTracker.trackColor_ pixels width height color minGroupSize
          minDimension maxDimension = some (results, work) ∧
        work ≤ width * height := by
  cases hreg : ColorTracker.knownColors_ color with
  | none =>
    refine ⟨[], 0, ?_, by omega⟩
    unfold ColorTracker.trackColor_
    rw [hreg]
  | some colorFn =>
    obtain ⟨m', r', w', heq, hacc⟩ := ColorTracker.trackColorLoop_total
      pixels width height colorFn minGroupSize color
      (ColorTracker.seedList width height) ∅ [] 0
      (ColorTracker.seedList_bounds width height)
    refine ⟨ColorTracker.mergeRectangles_ minDimension maxDimension r',
      w', ?_, ?_⟩
    · unfold ColorTracker.trackColor_
      simp only [hreg, heq]
    · have h0 : (ColorTracker.imageOffsets width height \ ∅).card =
          width * height := by
        rw [Finset.sdiff_empty, ColorTracker.card_imageOffsets]
      omega
